import Mathlib

/-!
Verification of the date-fixing core of `mal_helper.py`.

The embedding translates, directly from the source:
- `_get_entry_history`'s per-record cleaning loop (`parseLine`, `parseHistory`,
  `convertWdate`, with Python string slicing modelled by `pySlice*`);
- `_determine_dates` (`determineDatesChron`, `determineDates`, with Python's
  `min`/`max` with a key modelled by `minByKey`/`maxByKey` and the
  enumerate-and-break scans by `findFirst`);
- the per-entry control flow of `date_fixer` (`runEntry`, `needsHistory`,
  `entryStep`), including the loop-carried `start_date`/`finish_date` locals.

An `Option` result with value `none` models a Python exception escaping the
translated code (IndexError from a malformed record, ValueError from `min` of
an empty sequence, UnboundLocalError from a never-assigned `finish_date`).
-/

namespace MalHelper

/-- One cleaned history record, the tuple `(wcount, converted_wdate, wtime)`
built by `_get_entry_history`. `count` is kept as the raw string, as in the
source; `int()` is applied only inside the min/max keys. -/
structure HistoryEvent where
  count : String
  date : String
  time : String
deriving DecidableEq, Repr

/-- Python `int(s)` on the digit strings found in parsed histories.
(On non-digit input Python raises; such records do not occur in the
histories the claims quantify over.) -/
def pyInt (s : String) : Nat :=
  s.data.foldl (fun n c => n * 10 + (c.toNat - 48)) 0

/-- Python string comparison `a < b`: lexicographic by code point, stated on
the underlying character list. The source relies on it for ISO date strings. -/
def pyStrLt (a b : String) : Prop :=
  a.data < b.data

instance (a b : String) : Decidable (pyStrLt a b) :=
  inferInstanceAs (Decidable (a.data < b.data))

/-- Python `line.split(" ")`: split on every single space, keeping empty
tokens, as Python does for an explicit separator. -/
def pySplitSpace : List Char → List (List Char)
  | [] => [[]]
  | c :: cs =>
    if c = ' ' then [] :: pySplitSpace cs
    else
      match pySplitSpace cs with
      | t :: ts => (c :: t) :: ts
      | [] => [[c]]

/-- Python slice `s[i:]`. -/
def pySliceFrom (s : String) (i : Nat) : String :=
  ⟨s.data.drop i⟩

/-- Python slice `s[:j]`. -/
def pySliceTo (s : String) (j : Nat) : String :=
  ⟨s.data.take j⟩

/-- Python slice `s[i:j]` for `i ≤ j`. -/
def pySlice (s : String) (i j : Nat) : String :=
  ⟨(s.data.drop i).take (j - i)⟩

/-- Python slice `s[:-1]`. -/
def pyDropLast (s : String) : String :=
  ⟨s.data.dropLast⟩

/-- `converted_wdate = wdate[6:] + "-" + wdate[:2] + "-" + wdate[3:5]` from
`_get_entry_history`. -/
def convertWdate (wdate : String) : String :=
  pySliceFrom wdate 6 ++ "-" ++ pySliceTo wdate 2 ++ "-" ++ pySlice wdate 3 5

/-- The body of `_get_entry_history`'s cleaning loop for one record:
`parts = line.split(" ")`, `wdate = parts[4]`, `wtime = parts[6]`,
`wcount = parts[1][:-1]`. `none` models the IndexError raised when the
record has too few tokens. -/
def parseLine (line : String) : Option HistoryEvent :=
  let parts : List String := (pySplitSpace line.data).map fun t => ⟨t⟩
  match parts.get? 4, parts.get? 6, parts.get? 1 with
  | some wdate, some wtime, some p1 =>
      some ⟨pyDropLast p1, convertWdate wdate, wtime⟩
  | _, _, _ => none

/-- The whole cleaning loop of `_get_entry_history`: all records are parsed
or the fetch fails as a whole (`none` models the exception propagating, with
the partially built `cleaned_history` discarded). -/
def parseHistory : List String → Option (List HistoryEvent)
  | [] => some []
  | l :: ls =>
    match parseLine l, parseHistory ls with
    | some e, some es => some (e :: es)
    | _, _ => none

/-- Python `min(l, key=key)`: the first element of `l` attaining the minimal
key (ties keep the earlier element); `none` for the empty list, where Python
raises ValueError. -/
def minByKey (key : HistoryEvent → Nat) : List HistoryEvent → Option HistoryEvent
  | [] => none
  | x :: xs =>
    match minByKey key xs with
    | none => some x
    | some y => if key y < key x then some y else some x

/-- Python `max(l, key=key)`: the first element of `l` attaining the maximal
key (ties keep the earlier element); `none` for the empty list. -/
def maxByKey (key : HistoryEvent → Nat) : List HistoryEvent → Option HistoryEvent
  | [] => none
  | x :: xs =>
    match maxByKey key xs with
    | none => some x
    | some y => if key x < key y then some y else some x

/-- The source's enumerate-and-break scan: the first element (with its index)
whose `count` string equals `c`. -/
def findFirst (c : String) : List HistoryEvent → Option (Nat × HistoryEvent)
  | [] => none
  | x :: xs =>
    if x.count = c then some (0, x)
    else
      match findFirst c xs with
      | some (i, y) => some (i + 1, y)
      | none => none

/-- `_determine_dates` after the `history = history[::-1]` reversal, on the
chronologically ordered list. `earliest_ep`/`latest_ep` are the count strings
of the min/max elements under the `int` key; the start scan finds the first
chronological event with `earliest_ep`, the finish scan resumes from the start
index looking for `latest_ep`. `none` models a raised exception: ValueError
on an empty history, or UnboundLocalError at the final print when no event
with `latest_ep` occurs at or after the start index (then `finish_date` is
never assigned). -/
def determineDatesChron (chron : List HistoryEvent) : Option (String × String) :=
  match minByKey (fun x => pyInt x.count) chron,
        maxByKey (fun x => pyInt x.count) chron with
  | some emin, some emax =>
    match findFirst emin.count chron with
    | some (si, se) =>
      match findFirst emax.count (chron.drop si) with
      | some (_, fe) => some (se.date, fe.date)
      | none => none
    | none => none
  | _, _ => none

/-- `_determine_dates(history)` on the newest-first history as fetched. -/
def determineDates (history : List HistoryEvent) : Option (String × String) :=
  determineDatesChron (history.reverse)

/-- State-passing reading of `_determine_dates`: the caller's `history`
variable is threaded through. `history = history[::-1]` rebinds a fresh
local (Python slicing copies), so the caller's list is returned unchanged. -/
def determineDatesSt (history : List HistoryEvent) :
    Option (String × String) × List HistoryEvent :=
  let rev := history.reverse
  (determineDatesChron rev, history)

/-- One entry of the user's list as read by `date_fixer`:
`entry["list_status"]["status"]` and the two optional dates, which the source
reads with `.get(..., "UNKNOWN")`. -/
structure ListEntry where
  status : String
  start_date : Option String
  finish_date : Option String
deriving DecidableEq, Repr

/-- The proposal-stage outcome of `date_fixer` for one entry, before the
user's choice is read. -/
inductive Outcome where
  | flagDateOrder
  | autoSkipNotCompleted
  | autoSkipAlreadyDated
  | proposeSkipNotCompleted
  | proposeSkipAlreadyDated
  | flagNoHistory
  | propose (start finish : String)
deriving DecidableEq, Repr

/-- Whether `date_fixer`'s control flow reaches the
`self._get_entry_history(...)` call for this entry: it does unless the
date-order sanity check or one of the two `auto_skip` checks fired first. -/
def needsHistory (e : ListEntry) (auto_skip : Bool) : Bool :=
  let sd := e.start_date.getD "UNKNOWN"
  let fd := e.finish_date.getD "UNKNOWN"
  if sd ≠ "UNKNOWN" ∧ fd ≠ "UNKNOWN" ∧ pyStrLt fd sd then false
  else if auto_skip = true ∧ e.status ≠ "completed" then false
  else if auto_skip = true ∧ (sd ≠ "UNKNOWN" ∧ fd ≠ "UNKNOWN") then false
  else true

/-- The proposal stage of `date_fixer` for one entry, in source order:
the date-order sanity check, the two `auto_skip` checks, the history fetch
(`raw` is the fetched raw record list), then the proposed-change block.
`none` models an exception escaping `date_fixer` (there is no handler in the
source): a malformed history record, or `_determine_dates` failing to assign
`finish_date`. -/
def runEntry (e : ListEntry) (auto_skip : Bool) (raw : List String) : Option Outcome :=
  let sd := e.start_date.getD "UNKNOWN"
  let fd := e.finish_date.getD "UNKNOWN"
  if sd ≠ "UNKNOWN" ∧ fd ≠ "UNKNOWN" ∧ pyStrLt fd sd then some .flagDateOrder
  else if auto_skip = true ∧ e.status ≠ "completed" then some .autoSkipNotCompleted
  else if auto_skip = true ∧ (sd ≠ "UNKNOWN" ∧ fd ≠ "UNKNOWN") then some .autoSkipAlreadyDated
  else
    match parseHistory raw with
    | none => none
    | some history =>
      if e.status ≠ "completed" then some .proposeSkipNotCompleted
      else if sd ≠ "UNKNOWN" ∧ fd ≠ "UNKNOWN" then some .proposeSkipAlreadyDated
      else if history = [] then some .flagNoHistory
      else
        match determineDates history with
        | some (s, f) => some (.propose s f)
        | none => none

/-- The user's validated console choice: `Y`, `S`, `F` or `X`. -/
inductive ReviewAction where
  | proceed
  | skipEntry
  | finishDateOnly
  | abort
deriving DecidableEq, Repr

/-- The `updates` dictionary sent to `update_entry`: each field present or
absent, as built by the `Y`/`F` branches. -/
structure Updates where
  start_date : Option String
  finish_date : Option String
deriving DecidableEq, Repr

/-- What one iteration of `date_fixer`'s entry loop does, observably. -/
inductive StepResult where
  | flagged (o : Outcome)
  | skipped
  | submitted (u : Updates)
  | exited
  | crashed
deriving DecidableEq, Repr

/-- The `Y`/`S`/`F`/`X` branch when the proposal was a skip rationale
(`skip_flag = True`). `F` still builds `updates = {"finish_date": finish_date}`
from the loop-carried local; if that local was never assigned the source
raises NameError (modelled by `crashed`). -/
def skipProposalStep (choice : ReviewAction) (finishVar : Option String) : StepResult :=
  match choice with
  | .proceed => .skipped
  | .skipEntry => .skipped
  | .finishDateOnly =>
    match finishVar with
    | some v => .submitted ⟨none, some v⟩
    | none => .crashed
  | .abort => .exited

/-- One iteration of `date_fixer`'s entry loop: the proposal stage, then the
user's choice. `vars` is the pair of function-scoped locals
`(start_date, finish_date)`, which persist across loop iterations; they are
reassigned only by a successful `_determine_dates` call. -/
def entryStep (e : ListEntry) (auto_skip : Bool) (raw : List String)
    (choice : ReviewAction) (vars : Option String × Option String) :
    StepResult × (Option String × Option String) :=
  match runEntry e auto_skip raw with
  | none => (.crashed, vars)
  | some .flagDateOrder => (.flagged .flagDateOrder, vars)
  | some .autoSkipNotCompleted => (.skipped, vars)
  | some .autoSkipAlreadyDated => (.skipped, vars)
  | some .flagNoHistory => (.flagged .flagNoHistory, vars)
  | some .proposeSkipNotCompleted => (skipProposalStep choice vars.2, vars)
  | some .proposeSkipAlreadyDated => (skipProposalStep choice vars.2, vars)
  | some (.propose s f) =>
    let vars2 : Option String × Option String := (some s, some f)
    (match choice with
     | .proceed => .submitted ⟨some s, some f⟩
     | .skipEntry => .skipped
     | .finishDateOnly => .submitted ⟨none, some f⟩
     | .abort => .exited, vars2)


/-- Numeric value of a fixed-width digit string, most significant digit
first: the chronological meaning of a date component, used to state that
lexicographic comparison of converted dates agrees with chronology. -/
def digitsToNat : List Char → Nat
  | [] => 0
  | c :: cs => (c.toNat - 48) * 10 ^ cs.length + digitsToNat cs

/-- The spec's Scenario A history, newest-first, as cleaned records. -/
def scenarioA : List HistoryEvent :=
  [⟨"3", "2021-01-05", "10:00"⟩, ⟨"2", "2021-01-04", "09:00"⟩, ⟨"1", "2021-01-03", "08:00"⟩]

/-- A rewatch-style history, newest-first: the maximum count "2" occurs
chronologically both before and after the unique minimum "1". -/
def rewatchHistory : List HistoryEvent :=
  [⟨"2", "2021-01-05", "10:00"⟩, ⟨"1", "2021-01-03", "08:00"⟩, ⟨"2", "2021-01-01", "07:00"⟩]

/-- A history, newest-first, whose minimum count "1" occurs at two distinct
chronological positions. -/
def dupMinHistory : List HistoryEvent :=
  [⟨"2", "2021-01-06", "10:00"⟩, ⟨"1", "2021-01-04", "09:00"⟩, ⟨"1", "2021-01-02", "08:00"⟩]

/-- Scenario D raw history records, newest-first, in the scraped layout. -/
def scenarioDRaw : List String :=
  ["Ep 3, watched on 01/05/2021 at 10:00",
   "Ep 2, watched on 01/04/2021 at 09:00",
   "Ep 1, watched on 01/03/2021 at 08:00"]

end MalHelper

namespace MalHelper

theorem minByKey_none (key : HistoryEvent → Nat) :
    ∀ (l : List HistoryEvent), minByKey key l = none → l = []
  | [], _ => rfl
  | x :: xs, h => by
    exfalso
    simp only [minByKey] at h
    split at h
    · simp at h
    · split at h <;> simp at h

theorem maxByKey_none (key : HistoryEvent → Nat) :
    ∀ (l : List HistoryEvent), maxByKey key l = none → l = []
  | [], _ => rfl
  | x :: xs, h => by
    exfalso
    simp only [maxByKey] at h
    split at h
    · simp at h
    · split at h <;> simp at h

theorem minByKey_spec (key : HistoryEvent → Nat) :
    ∀ (l : List HistoryEvent) (e : HistoryEvent), minByKey key l = some e →
      ∃ i : Nat, ∃ hi : i < l.length, e = l.get ⟨i, hi⟩ ∧
        (∀ k (hk : k < l.length), key e ≤ key (l.get ⟨k, hk⟩)) ∧
        (∀ k (hk : k < l.length), k < i → key e < key (l.get ⟨k, hk⟩)) := by
  intro l
  induction l with
  | nil => intro e h; simp [minByKey] at h
  | cons x xs ih =>
    intro e h
    simp only [minByKey] at h
    split at h
    next hxs =>
      obtain rfl : x = e := by simpa using h
      obtain rfl : xs = [] := minByKey_none key xs hxs
      refine ⟨0, Nat.succ_pos _, rfl, ?_, ?_⟩
      · intro k hk
        simp only [List.length_cons, List.length_nil] at hk
        obtain rfl : k = 0 := by omega
        exact Nat.le_refl _
      · intro k hk hlt
        omega
    next y hxs =>
      obtain ⟨i, hi, hey, hle, hfirst⟩ := ih y hxs
      split at h
      next hxy =>
        obtain rfl : y = e := by simpa using h
        refine ⟨i + 1, Nat.succ_lt_succ hi, hey, ?_, ?_⟩
        · intro k hk
          cases k with
          | zero => exact Nat.le_of_lt hxy
          | succ k => exact hle k (Nat.lt_of_succ_lt_succ hk)
        · intro k hk hlt
          cases k with
          | zero => exact hxy
          | succ k => exact hfirst k (Nat.lt_of_succ_lt_succ hk) (Nat.lt_of_succ_lt_succ hlt)
      next hxy =>
        obtain rfl : x = e := by simpa using h
        refine ⟨0, Nat.succ_pos _, rfl, ?_, ?_⟩
        · intro k hk
          cases k with
          | zero => exact Nat.le_refl _
          | succ k => exact Nat.le_trans (Nat.le_of_not_lt hxy) (hle k (Nat.lt_of_succ_lt_succ hk))
        · intro k hk hlt
          omega

theorem maxByKey_spec (key : HistoryEvent → Nat) :
    ∀ (l : List HistoryEvent) (e : HistoryEvent), maxByKey key l = some e →
      ∃ i : Nat, ∃ hi : i < l.length, e = l.get ⟨i, hi⟩ ∧
        (∀ k (hk : k < l.length), key (l.get ⟨k, hk⟩) ≤ key e) ∧
        (∀ k (hk : k < l.length), k < i → key (l.get ⟨k, hk⟩) < key e) := by
  intro l
  induction l with
  | nil => intro e h; simp [maxByKey] at h
  | cons x xs ih =>
    intro e h
    simp only [maxByKey] at h
    split at h
    next hxs =>
      obtain rfl : x = e := by simpa using h
      obtain rfl : xs = [] := maxByKey_none key xs hxs
      refine ⟨0, Nat.succ_pos _, rfl, ?_, ?_⟩
      · intro k hk
        simp only [List.length_cons, List.length_nil] at hk
        obtain rfl : k = 0 := by omega
        exact Nat.le_refl _
      · intro k hk hlt
        omega
    next y hxs =>
      obtain ⟨i, hi, hey, hle, hfirst⟩ := ih y hxs
      split at h
      next hxy =>
        obtain rfl : y = e := by simpa using h
        refine ⟨i + 1, Nat.succ_lt_succ hi, hey, ?_, ?_⟩
        · intro k hk
          cases k with
          | zero => exact Nat.le_of_lt hxy
          | succ k => exact hle k (Nat.lt_of_succ_lt_succ hk)
        · intro k hk hlt
          cases k with
          | zero => exact hxy
          | succ k => exact hfirst k (Nat.lt_of_succ_lt_succ hk) (Nat.lt_of_succ_lt_succ hlt)
      next hxy =>
        obtain rfl : x = e := by simpa using h
        refine ⟨0, Nat.succ_pos _, rfl, ?_, ?_⟩
        · intro k hk
          cases k with
          | zero => exact Nat.le_refl _
          | succ k => exact Nat.le_trans (hle k (Nat.lt_of_succ_lt_succ hk)) (Nat.le_of_not_lt hxy)
        · intro k hk hlt
          omega

theorem findFirst_eq (c : String) :
    ∀ (l : List HistoryEvent) (k : Nat) (hk : k < l.length),
      (l.get ⟨k, hk⟩).count = c →
      (∀ m (hm : m < l.length), m < k → (l.get ⟨m, hm⟩).count ≠ c) →
      findFirst c l = some (k, l.get ⟨k, hk⟩)
  | [], k, hk => by simp at hk
  | x :: xs, 0, hk => by
    intro hmatch hbefore
    have hm0 : x.count = c := hmatch
    simp only [findFirst, if_pos hm0]
    rfl
  | x :: xs, k + 1, hk => by
    intro hmatch hbefore
    have hx : x.count ≠ c := hbefore 0 (Nat.succ_pos _) (Nat.succ_pos k)
    have hk2 : k < xs.length := Nat.lt_of_succ_lt_succ hk
    simp only [findFirst, if_neg hx]
    rw [findFirst_eq c xs k hk2 hmatch
      (fun m hm hmk => hbefore (m + 1) (Nat.succ_lt_succ hm) (Nat.succ_lt_succ hmk))]
    rfl

end MalHelper
namespace MalHelper

theorem determineDatesChron_eq (l : List HistoryEvent) (i j : Nat)
    (hi : i < l.length) (hj : j < l.length) (hij : i ≤ j)
    (hminle : ∀ k (hk : k < l.length),
      pyInt (l.get ⟨i, hi⟩).count ≤ pyInt (l.get ⟨k, hk⟩).count)
    (hminfirst : ∀ k (hk : k < l.length), k < i →
      pyInt (l.get ⟨k, hk⟩).count ≠ pyInt (l.get ⟨i, hi⟩).count)
    (hmaxge : ∀ k (hk : k < l.length),
      pyInt (l.get ⟨k, hk⟩).count ≤ pyInt (l.get ⟨j, hj⟩).count)
    (hmaxstr : ∀ k (hk : k < l.length),
      pyInt (l.get ⟨k, hk⟩).count = pyInt (l.get ⟨j, hj⟩).count →
      (l.get ⟨k, hk⟩).count = (l.get ⟨j, hj⟩).count)
    (hmaxfirst : ∀ k (hk : k < l.length), i ≤ k → k < j →
      (l.get ⟨k, hk⟩).count ≠ (l.get ⟨j, hj⟩).count) :
    determineDatesChron l = some ((l.get ⟨i, hi⟩).date, (l.get ⟨j, hj⟩).date) := by
  have hne : l ≠ [] := by
    intro hl
    subst hl
    simp at hi
  obtain ⟨emin, hminsome⟩ : ∃ e, minByKey (fun x => pyInt x.count) l = some e := by
    cases hmin : minByKey (fun x => pyInt x.count) l with
    | none => exact absurd (minByKey_none _ l hmin) hne
    | some e => exact ⟨e, rfl⟩
  obtain ⟨im, him, heim, hminle2, hminfirst2⟩ := minByKey_spec _ l emin hminsome
  have him_eq : im = i := by
    rcases Nat.lt_trichotomy im i with h | h | h
    · exfalso
      have h1 := hminle im him
      have h2 := hminle2 i hi
      rw [heim] at h2
      exact hminfirst im him h (Nat.le_antisymm h2 h1)
    · exact h
    · exfalso
      have h1 := hminfirst2 i hi h
      have h2 := hminle im him
      rw [heim] at h1
      omega
  subst him_eq
  have hfind1 : findFirst emin.count l = some (im, l.get ⟨im, hi⟩) := by
    apply findFirst_eq
    · rw [heim]
    · intro m hm hmi hceq
      apply hminfirst m hm hmi
      have : emin.count = (l.get ⟨im, hi⟩).count := by rw [heim]
      rw [this] at hceq
      rw [hceq]
  obtain ⟨emax, hmaxsome⟩ : ∃ e, maxByKey (fun x => pyInt x.count) l = some e := by
    cases hmax : maxByKey (fun x => pyInt x.count) l with
    | none => exact absurd (maxByKey_none _ l hmax) hne
    | some e => exact ⟨e, rfl⟩
  obtain ⟨jm, hjm, hejm, hmaxle2, hmaxfirst2⟩ := maxByKey_spec _ l emax hmaxsome
  have hval : pyInt emax.count = pyInt (l.get ⟨j, hj⟩).count := by
    have h1 := hmaxge jm hjm
    have h2 := hmaxle2 j hj
    rw [hejm] at h2 ⊢
    omega
  have hstr : emax.count = (l.get ⟨j, hj⟩).count := by
    rw [hejm]
    apply hmaxstr jm hjm
    have := hval
    rw [hejm] at this
    exact this
  have hlj : j - im < (l.drop im).length := by
    rw [List.length_drop]
    omega
  have him2 : im + (j - im) < l.length := by omega
  have hidx : im + (j - im) = j := by omega
  have hgetdrop : (l.drop im).get ⟨j - im, hlj⟩ = l.get ⟨j, hj⟩ := by
    rw [List.get_eq_getElem, List.get_eq_getElem]
    rw [List.getElem_drop]
    simp only [hidx]
  have hfind2 : findFirst emax.count (l.drop im) =
      some (j - im, (l.drop im).get ⟨j - im, hlj⟩) := by
    apply findFirst_eq
    · rw [hgetdrop]
      exact hstr.symm
    · intro m hm hmj hceq
      have hm2 : im + m < l.length := by
        rw [List.length_drop] at hm
        omega
      have hgd : (l.drop im).get ⟨m, hm⟩ = l.get ⟨im + m, hm2⟩ := by
        rw [List.get_eq_getElem, List.get_eq_getElem]
        rw [List.getElem_drop]
      rw [hgd] at hceq
      rw [hstr] at hceq
      exact hmaxfirst (im + m) hm2 (Nat.le_add_right im m) (by omega) hceq
  simp only [determineDatesChron, hminsome, hmaxsome, hfind1, hfind2]
  rw [hgetdrop]

end MalHelper
namespace MalHelper

/-- C1: for a non-empty newest-first history whose progress counts have a
unique minimum (at chronological position `i`) and a unique maximum (at
chronological position `j`) with min < max, and where the maximum event
occurs at or after the start event (`i ≤ j`, the only case in which the
description "the first maximum event at or after the start event" denotes),
`_determine_dates` returns start = the date of the minimum event and
finish = the date of the first chronological event with the maximum count at
or after the start event, which by uniqueness is the event at `j`. -/
theorem determine_dates_unique_min_max (history : List HistoryEvent) (i j : Nat)
    (hi : i < history.reverse.length) (hj : j < history.reverse.length)
    (hij : i ≤ j)
    (hmin : ∀ k (hk : k < history.reverse.length), k ≠ i →
      pyInt (history.reverse.get ⟨i, hi⟩).count < pyInt (history.reverse.get ⟨k, hk⟩).count)
    (hmax : ∀ k (hk : k < history.reverse.length), k ≠ j →
      pyInt (history.reverse.get ⟨k, hk⟩).count < pyInt (history.reverse.get ⟨j, hj⟩).count)
    (hmm : pyInt (history.reverse.get ⟨i, hi⟩).count <
      pyInt (history.reverse.get ⟨j, hj⟩).count) :
    determineDates history =
      some ((history.reverse.get ⟨i, hi⟩).date, (history.reverse.get ⟨j, hj⟩).date) := by
  unfold determineDates
  apply determineDatesChron_eq history.reverse i j hi hj hij
  · intro k hk
    by_cases h : k = i
    · subst h
      exact Nat.le_refl _
    · exact Nat.le_of_lt (hmin k hk h)
  · intro k hk hki
    exact Nat.ne_of_gt (hmin k hk (by omega))
  · intro k hk
    by_cases h : k = j
    · subst h
      exact Nat.le_refl _
    · exact Nat.le_of_lt (hmax k hk h)
  · intro k hk hkeq
    by_cases h : k = j
    · subst h
      rfl
    · exact absurd hkeq (Nat.ne_of_lt (hmax k hk h))
  · intro k hk hik hkj hceq
    have hv : pyInt (history.reverse.get ⟨k, hk⟩).count =
        pyInt (history.reverse.get ⟨j, hj⟩).count := by rw [hceq]
    exact absurd hv (Nat.ne_of_lt (hmax k hk (by omega)))

/-- Witness: Scenario A, newest-first [(3, 2021-01-05), (2, 2021-01-04),
(1, 2021-01-03)]: start = 2021-01-03 and finish = 2021-01-05. -/
theorem determine_dates_unique_min_max_witness :
    determineDates scenarioA = some ("2021-01-03", "2021-01-05") :=
  determine_dates_unique_min_max scenarioA 0 2 (by decide) (by decide) (by decide)
    (by decide) (by decide) (by decide)

/-- C2 (code bug): on the newest-first history [(1, 2021-01-03),
(3, 2021-01-01)] — a rewatch, where the maximum count 3 occurs only
chronologically before the minimum count 1 — no event with the maximum count
occurs at or after the start event, so `_determine_dates` never assigns
`finish_date` and raises UnboundLocalError at its final print (modelled by
`none`) instead of surfacing a reportable cannot-determine-finish state. -/
theorem determine_dates_indeterminate_finish_crashes :
    determineDates [⟨"1", "2021-01-03", "08:00"⟩, ⟨"3", "2021-01-01", "10:00"⟩] = none := by
  decide

/-- C9: `_determine_dates` is a pure function of the normalized history:
the caller's list is returned unchanged (the `[::-1]` reversal copies into a
fresh local), and re-running it on the same history yields the identical
result. -/
theorem determine_dates_pure_idempotent (history : List HistoryEvent) :
    (determineDatesSt history).2 = history ∧
    (determineDatesSt history).1 = determineDates history ∧
    determineDatesSt ((determineDatesSt history).2) = determineDatesSt history :=
  ⟨rfl, rfl, rfl⟩

/-- C3: an entry with both dates present whose start date is
lexicographically greater than its finish date always yields the
date-order-error flag, whatever its status, the auto_skip setting and the
history, and `date_fixer` never reaches the history fetch for it. -/
theorem date_order_always_flagged (e : ListEntry) (auto_skip : Bool) (raw : List String)
    (h1 : e.start_date.getD "UNKNOWN" ≠ "UNKNOWN")
    (h2 : e.finish_date.getD "UNKNOWN" ≠ "UNKNOWN")
    (h3 : pyStrLt (e.finish_date.getD "UNKNOWN") (e.start_date.getD "UNKNOWN")) :
    runEntry e auto_skip raw = some .flagDateOrder ∧ needsHistory e auto_skip = false := by
  constructor
  · simp only [runEntry]
    rw [if_pos ⟨h1, h2, h3⟩]
  · simp only [needsHistory]
    rw [if_pos ⟨h1, h2, h3⟩]

/-- Witness: Scenario C, start_date = 2020-05-01 and finish_date =
2020-01-01, with a non-completed status and auto-skip enabled. -/
theorem date_order_always_flagged_witness :
    runEntry ⟨"watching", some "2020-05-01", some "2020-01-01"⟩ true ["x"] =
      some .flagDateOrder ∧
    needsHistory ⟨"watching", some "2020-05-01", some "2020-01-01"⟩ true = false :=
  date_order_always_flagged _ _ _ (by decide) (by decide) (by decide)

/-- C4 (counterexample): an entry with status "watching", no dates and
auto_skip disabled does reach the history fetch, yet with an empty fetched
history the outcome is the skip-not-completed proposal, not FlagNoHistory,
refuting "for every list entry whose fetched history is empty, the policy
outcome is FlagNoHistory". -/
theorem empty_history_not_always_flagged :
    runEntry ⟨"watching", none, none⟩ false [] = some .proposeSkipNotCompleted ∧
    some Outcome.proposeSkipNotCompleted ≠ some Outcome.flagNoHistory ∧
    needsHistory ⟨"watching", none, none⟩ false = true := by
  decide

/-- C4 (amended): for every entry that reaches the inference branch (status
completed and not both dates already present), an empty fetched history
always yields the FlagNoHistory outcome, surfaced with no exception escaping
the policy logic. -/
theorem empty_history_flag_no_history (e : ListEntry) (auto_skip : Bool)
    (hst : e.status = "completed")
    (hdate : e.start_date.getD "UNKNOWN" = "UNKNOWN" ∨
      e.finish_date.getD "UNKNOWN" = "UNKNOWN") :
    runEntry e auto_skip [] = some .flagNoHistory := by
  have hboth : ¬(e.start_date.getD "UNKNOWN" ≠ "UNKNOWN" ∧
      e.finish_date.getD "UNKNOWN" ≠ "UNKNOWN") := by
    rcases hdate with h | h <;> simp [h]
  simp only [runEntry, parseHistory]
  rw [if_neg (fun hcon => hboth ⟨hcon.1, hcon.2.1⟩)]
  rw [if_neg (fun hcon => hcon.2 hst)]
  rw [if_neg (fun hcon => hboth hcon.2)]
  rw [if_neg (fun hcon => hcon hst)]
  rw [if_neg hboth]
  simp

/-- Witness: Scenario B, a completed entry with both dates absent, auto-skip
disabled and empty history. -/
theorem empty_history_flag_no_history_witness :
    runEntry ⟨"completed", none, none⟩ false [] = some .flagNoHistory :=
  empty_history_flag_no_history _ _ rfl (Or.inl rfl)

end MalHelper
namespace MalHelper

/-- C5 (counterexample): in the rewatch history the maximum count "2" occurs
chronologically first at 2021-01-01, yet the selected finish is 2021-01-05 —
the first occurrence at or after the start position — so the chronologically
earliest instance is not the one selected for finish determination. -/
theorem finish_not_globally_earliest_instance :
    findFirst "2" rewatchHistory.reverse =
      some (0, ⟨"2", "2021-01-01", "07:00"⟩) ∧
    determineDates rewatchHistory = some ("2021-01-03", "2021-01-05") ∧
    ("2021-01-05" : String) ≠ "2021-01-01" := by
  decide

/-- C5 (amended): when the minimum progress count occurs at two chronological
positions `i < i2`, the start is the chronologically earliest instance (the
event at `i`); the finish is the chronologically earliest instance of the
maximum at or after the start position (the event at `j`), not the globally
earliest instance. Count strings are assumed consistent (equal values have
equal spellings), as produced by the scraper. -/
theorem tie_break_earliest_instance (history : List HistoryEvent) (i i2 j : Nat)
    (hi : i < history.reverse.length) (hi2 : i2 < history.reverse.length)
    (hj : j < history.reverse.length)
    (_hdup : i < i2)
    (_hdupval : pyInt (history.reverse.get ⟨i2, hi2⟩).count =
      pyInt (history.reverse.get ⟨i, hi⟩).count)
    (hminle : ∀ k (hk : k < history.reverse.length),
      pyInt (history.reverse.get ⟨i, hi⟩).count ≤ pyInt (history.reverse.get ⟨k, hk⟩).count)
    (hminfirst : ∀ k (hk : k < history.reverse.length), k < i →
      pyInt (history.reverse.get ⟨i, hi⟩).count < pyInt (history.reverse.get ⟨k, hk⟩).count)
    (hij : i ≤ j)
    (hmaxge : ∀ k (hk : k < history.reverse.length),
      pyInt (history.reverse.get ⟨k, hk⟩).count ≤ pyInt (history.reverse.get ⟨j, hj⟩).count)
    (hmaxfirst : ∀ k (hk : k < history.reverse.length), i ≤ k → k < j →
      pyInt (history.reverse.get ⟨k, hk⟩).count ≠ pyInt (history.reverse.get ⟨j, hj⟩).count)
    (hcon : ∀ k (hk : k < history.reverse.length),
      pyInt (history.reverse.get ⟨k, hk⟩).count = pyInt (history.reverse.get ⟨j, hj⟩).count →
      (history.reverse.get ⟨k, hk⟩).count = (history.reverse.get ⟨j, hj⟩).count) :
    determineDates history =
      some ((history.reverse.get ⟨i, hi⟩).date, (history.reverse.get ⟨j, hj⟩).date) := by
  unfold determineDates
  apply determineDatesChron_eq history.reverse i j hi hj hij hminle
  · intro k hk hki
    exact Nat.ne_of_gt (hminfirst k hk hki)
  · exact hmaxge
  · exact hcon
  · intro k hk hik hkj hceq
    exact hmaxfirst k hk hik hkj (by rw [hceq])

/-- Witness: the minimum count "1" occurs at chronological positions 0 and 1
of `dupMinHistory`; the start is the earlier date 2021-01-02. -/
theorem tie_break_earliest_instance_witness :
    determineDates dupMinHistory = some ("2021-01-02", "2021-01-06") :=
  tie_break_earliest_instance dupMinHistory 0 1 2 (by decide) (by decide) (by decide)
    (by decide) (by decide) (by decide) (by decide) (by decide) (by decide) (by decide)
    (by decide)

theorem parseHistory_none (raw : List String) (l : String)
    (hl : l ∈ raw) (hbad : parseLine l = none) : parseHistory raw = none := by
  induction raw with
  | nil => cases hl
  | cons x xs ih =>
    rcases List.mem_cons.mp hl with rfl | hl2
    · simp [parseHistory, hbad]
    · cases hpx : parseLine x <;> simp [parseHistory, hpx, ih hl2]

/-- C7 (counterexample): for a completed, undated entry whose fetched history
consists of one malformed record, `date_fixer` hits an uncaught IndexError
(modelled by `none`): the session crashes, and the outcome is not
FlagNoHistory. -/
theorem malformed_record_not_flag_no_history :
    runEntry ⟨"completed", none, none⟩ false ["garbage"] = none ∧
    runEntry ⟨"completed", none, none⟩ false ["garbage"] ≠ some .flagNoHistory := by
  decide

/-- C7 (amended): a record that does not match the expected token layout is
fatal for that entry's whole history fetch — the parse yields nothing, so no
malformed record is silently dropped — and whenever the entry's history is
fetched at all the resulting exception escapes `date_fixer` uncaught; it is
not converted into FlagNoHistory handling. -/
theorem malformed_record_fatal (e : ListEntry) (auto_skip : Bool) (raw : List String)
    (l : String) (hl : l ∈ raw) (hbad : parseLine l = none)
    (hneed : needsHistory e auto_skip = true) :
    parseHistory raw = none ∧ runEntry e auto_skip raw = none := by
  refine ⟨parseHistory_none raw l hl hbad, ?_⟩
  simp only [needsHistory] at hneed
  by_cases h1 : (e.start_date.getD "UNKNOWN" ≠ "UNKNOWN" ∧
      e.finish_date.getD "UNKNOWN" ≠ "UNKNOWN" ∧
      pyStrLt (e.finish_date.getD "UNKNOWN") (e.start_date.getD "UNKNOWN"))
  · rw [if_pos h1] at hneed
    cases hneed
  · by_cases h2 : (auto_skip = true ∧ e.status ≠ "completed")
    · rw [if_neg h1, if_pos h2] at hneed
      cases hneed
    · by_cases h3 : (auto_skip = true ∧ (e.start_date.getD "UNKNOWN" ≠ "UNKNOWN" ∧
          e.finish_date.getD "UNKNOWN" ≠ "UNKNOWN"))
      · rw [if_neg h1, if_neg h2, if_pos h3] at hneed
        cases hneed
      · simp only [runEntry]
        rw [if_neg h1, if_neg h2, if_neg h3, parseHistory_none raw l hl hbad]

/-- Witness: a completed, undated entry with auto-skip disabled and the
single malformed record "garbage". -/
theorem malformed_record_fatal_witness :
    parseHistory ["garbage"] = none ∧
    runEntry ⟨"completed", none, none⟩ false ["garbage"] = none :=
  malformed_record_fatal ⟨"completed", none, none⟩ false ["garbage"] "garbage"
    (by decide) (by decide) (by decide)

/-- C8: when inference produced the proposal `(s, f)`, the FinishDateOnly
decision submits an update containing exactly the finish_date field and no
start_date field — any existing start date on the entry is left untouched —
and the loop locals are set to the inferred pair. -/
theorem finish_date_only_update (e : ListEntry) (auto_skip : Bool) (raw : List String)
    (hist : List HistoryEvent) (s f : String) (vars : Option String × Option String)
    (hst : e.status = "completed")
    (hdate : e.start_date.getD "UNKNOWN" = "UNKNOWN" ∨
      e.finish_date.getD "UNKNOWN" = "UNKNOWN")
    (hparse : parseHistory raw = some hist)
    (hne : ¬hist = [])
    (hdet : determineDates hist = some (s, f)) :
    entryStep e auto_skip raw .finishDateOnly vars =
      (.submitted ⟨none, some f⟩, (some s, some f)) := by
  have hboth : ¬(e.start_date.getD "UNKNOWN" ≠ "UNKNOWN" ∧
      e.finish_date.getD "UNKNOWN" ≠ "UNKNOWN") := by
    rcases hdate with h | h <;> simp [h]
  have hrun : runEntry e auto_skip raw = some (.propose s f) := by
    simp only [runEntry, hparse, hdet]
    rw [if_neg (fun hcon => hboth ⟨hcon.1, hcon.2.1⟩)]
    rw [if_neg (fun hcon => hcon.2 hst)]
    rw [if_neg (fun hcon => hboth hcon.2)]
    rw [if_neg (fun hcon => hcon hst)]
    rw [if_neg hboth]
    rw [if_neg hne]
  simp only [entryStep, hrun]

/-- Witness: Scenario D — a completed entry with existing start date
2021-01-01 and no finish date; the history infers (2021-01-03, 2021-01-05)
and the F decision submits only finish_date = 2021-01-05. -/
theorem finish_date_only_update_witness :
    entryStep ⟨"completed", some "2021-01-01", none⟩ false scenarioDRaw
      .finishDateOnly (none, none) =
      (.submitted ⟨none, some "2021-01-05"⟩, (some "2021-01-03", some "2021-01-05")) :=
  finish_date_only_update ⟨"completed", some "2021-01-01", none⟩ false scenarioDRaw
    [⟨"3", "2021-01-05", "10:00"⟩, ⟨"2", "2021-01-04", "09:00"⟩, ⟨"1", "2021-01-03", "08:00"⟩]
    "2021-01-03" "2021-01-05" (none, none) rfl (Or.inr rfl) (by decide) (by decide) (by decide)

/-- C10: when the proposal was a skip rationale (status not completed, or
both dates already populated) so that no inference ran for this entry, the
FinishDateOnly decision does not skip: it submits an update whose
finish_date is the loop-carried local left over from the most recent
previously inferred entry, and it crashes with NameError (modelled by
`crashed`) when no earlier entry in the session was inferred; the loop
locals are unchanged either way. -/
theorem finish_only_on_skip_proposal (e : ListEntry) (raw : List String)
    (hist : List HistoryEvent) (vs vf : Option String)
    (hnoflag : ¬(e.start_date.getD "UNKNOWN" ≠ "UNKNOWN" ∧
      e.finish_date.getD "UNKNOWN" ≠ "UNKNOWN" ∧
      pyStrLt (e.finish_date.getD "UNKNOWN") (e.start_date.getD "UNKNOWN")))
    (hparse : parseHistory raw = some hist)
    (hskip : e.status ≠ "completed" ∨ (e.start_date.getD "UNKNOWN" ≠ "UNKNOWN" ∧
      e.finish_date.getD "UNKNOWN" ≠ "UNKNOWN")) :
    (∀ v, vf = some v → entryStep e false raw .finishDateOnly (vs, vf) =
      (.submitted ⟨none, some v⟩, (vs, vf))) ∧
    (vf = none → entryStep e false raw .finishDateOnly (vs, vf) =
      (.crashed, (vs, vf))) := by
  have hrun : runEntry e false raw = some .proposeSkipNotCompleted ∨
      runEntry e false raw = some .proposeSkipAlreadyDated := by
    simp only [runEntry, hparse]
    rw [if_neg hnoflag]
    rw [if_neg (fun hcon => Bool.false_ne_true hcon.1)]
    rw [if_neg (fun hcon => Bool.false_ne_true hcon.1)]
    by_cases hstatus : e.status ≠ "completed"
    · left
      rw [if_pos hstatus]
    · right
      have hbothp := hskip.resolve_left hstatus
      rw [if_neg hstatus, if_pos hbothp]
  constructor
  · intro v hv
    subst hv
    rcases hrun with h | h <;> simp [entryStep, h, skipProposalStep]
  · intro hv
    subst hv
    rcases hrun with h | h <;> simp [entryStep, h, skipProposalStep]

/-- Witness: a watching entry (skip rationale), F decision: with a leftover
finish 2021-09-09 an update with that foreign date is submitted; with no
leftover the session crashes. -/
theorem finish_only_on_skip_proposal_witness :
    entryStep ⟨"watching", none, none⟩ false [] .finishDateOnly (none, some "2021-09-09") =
      (.submitted ⟨none, some "2021-09-09"⟩, (none, some "2021-09-09")) ∧
    entryStep ⟨"watching", none, none⟩ false [] .finishDateOnly (none, none) =
      (.crashed, (none, none)) :=
  ⟨(finish_only_on_skip_proposal ⟨"watching", none, none⟩ [] [] none (some "2021-09-09")
      (by decide) (by decide) (Or.inl (by decide))).1 "2021-09-09" rfl,
   (finish_only_on_skip_proposal ⟨"watching", none, none⟩ [] [] none none
      (by decide) (by decide) (Or.inl (by decide))).2 rfl⟩

end MalHelper
namespace MalHelper

theorem isDigit_toNat {c : Char} (h : c.isDigit = true) :
    48 ≤ c.toNat ∧ c.toNat ≤ 57 := by
  simp only [Char.isDigit, Bool.and_eq_true, decide_eq_true_eq] at h
  exact ⟨h.1, h.2⟩

theorem digit_char_lt_iff {a b : Char} (ha : a.isDigit = true) (hb : b.isDigit = true) :
    a < b ↔ a.toNat - 48 < b.toNat - 48 := by
  have h1 := isDigit_toNat ha
  have h2 := isDigit_toNat hb
  have hlt : a < b ↔ a.toNat < b.toNat := Char.lt_iff_val_lt_val
  rw [hlt]
  set x := a.toNat with hx
  set y := b.toNat with hy
  omega

theorem digit_char_eq_iff {a b : Char} (ha : a.isDigit = true) (hb : b.isDigit = true) :
    a = b ↔ a.toNat - 48 = b.toNat - 48 := by
  have h1 := isDigit_toNat ha
  have h2 := isDigit_toNat hb
  constructor
  · intro h
    rw [h]
  · intro h
    have htn : a.toNat = b.toNat := by omega
    exact Char.ext (UInt32.ext htn)

theorem char_list_lt_cons_iff (x y : Char) (xs ys : List Char) :
    (x :: xs : List Char) < (y :: ys) ↔ x < y ∨ (x = y ∧ xs < ys) := by
  constructor
  · intro h
    cases h with
    | cons h => exact Or.inr ⟨rfl, h⟩
    | rel h => exact Or.inl h
  · rintro (h | ⟨rfl, h⟩)
    · exact List.Lex.rel h
    · exact List.Lex.cons h

theorem digitsToNat_lt (l : List Char) (h : ∀ c ∈ l, c.isDigit = true) :
    digitsToNat l < 10 ^ l.length := by
  induction l with
  | nil => simp [digitsToNat]
  | cons c cs ih =>
    have hc := isDigit_toNat (h c (List.mem_cons_self c cs))
    have hcs := ih (fun x hx => h x (List.mem_cons_of_mem c hx))
    simp only [digitsToNat, List.length_cons, pow_succ]
    have h9 : c.toNat - 48 ≤ 9 := by omega
    calc (c.toNat - 48) * 10 ^ cs.length + digitsToNat cs
        < (c.toNat - 48) * 10 ^ cs.length + 10 ^ cs.length := by omega
      _ = (c.toNat - 48 + 1) * 10 ^ cs.length := by ring
      _ ≤ 10 * 10 ^ cs.length := Nat.mul_le_mul_right _ (by omega)
      _ = 10 ^ cs.length * 10 := by ring

theorem digitsToNat_cons_lt_iff (a b : Char) (as bs : List Char)
    (hlen : as.length = bs.length)
    (has : ∀ c ∈ as, c.isDigit = true) (hbs : ∀ c ∈ bs, c.isDigit = true) :
    digitsToNat (a :: as) < digitsToNat (b :: bs) ↔
      (a.toNat - 48 < b.toNat - 48 ∨
        (a.toNat - 48 = b.toNat - 48 ∧ digitsToNat as < digitsToNat bs)) := by
  have hba := digitsToNat_lt as has
  have hbb := digitsToNat_lt bs hbs
  simp only [digitsToNat]
  rw [hlen] at hba ⊢
  constructor
  · intro h
    by_cases hab : a.toNat - 48 < b.toNat - 48
    · exact Or.inl hab
    · right
      have heq : a.toNat - 48 = b.toNat - 48 := by
        by_contra hne
        have hsucc : (b.toNat - 48 + 1) * 10 ^ bs.length ≤
            (a.toNat - 48) * 10 ^ bs.length :=
          Nat.mul_le_mul_right _ (by omega)
        rw [Nat.succ_mul] at hsucc
        omega
      refine ⟨heq, ?_⟩
      rw [heq] at h
      omega
  · rintro (h | ⟨heq, h⟩)
    · have hsucc : (a.toNat - 48 + 1) * 10 ^ bs.length ≤
          (b.toNat - 48) * 10 ^ bs.length :=
        Nat.mul_le_mul_right _ (by omega)
      rw [Nat.succ_mul] at hsucc
      omega
    · rw [heq]
      omega

theorem digit_list_eq_of_val_eq : ∀ (a b : List Char), a.length = b.length →
    (∀ c ∈ a, c.isDigit = true) → (∀ c ∈ b, c.isDigit = true) →
    digitsToNat a = digitsToNat b → a = b
  | [], [], _, _, _, _ => rfl
  | [], _ :: _, h, _, _, _ => by simp at h
  | _ :: _, [], h, _, _, _ => by simp at h
  | a :: as, b :: bs, hlen, ha, hb, hv => by
    have hlen2 : as.length = bs.length := by simpa using hlen
    have hda : a.isDigit = true := ha a (List.mem_cons_self a as)
    have hdb : b.isDigit = true := hb b (List.mem_cons_self b bs)
    have has : ∀ c ∈ as, c.isDigit = true := fun c hc => ha c (List.mem_cons_of_mem a hc)
    have hbs : ∀ c ∈ bs, c.isDigit = true := fun c hc => hb c (List.mem_cons_of_mem b hc)
    have hba := digitsToNat_lt as has
    have hbb := digitsToNat_lt bs hbs
    simp only [digitsToNat] at hv
    rw [hlen2] at hv hba
    have hvv : a.toNat - 48 = b.toNat - 48 := by
      by_contra hne
      rcases Nat.lt_or_ge (a.toNat - 48) (b.toNat - 48) with hlt | hge
      · have hsucc : (a.toNat - 48 + 1) * 10 ^ bs.length ≤
            (b.toNat - 48) * 10 ^ bs.length :=
          Nat.mul_le_mul_right _ (by omega)
        rw [Nat.succ_mul] at hsucc
        omega
      · have hsucc : (b.toNat - 48 + 1) * 10 ^ bs.length ≤
            (a.toNat - 48) * 10 ^ bs.length :=
          Nat.mul_le_mul_right _ (by omega)
        rw [Nat.succ_mul] at hsucc
        omega
    have hrest : digitsToNat as = digitsToNat bs := by
      rw [hvv] at hv
      omega
    rw [(digit_char_eq_iff hda hdb).mpr hvv,
      digit_list_eq_of_val_eq as bs hlen2 has hbs hrest]

theorem digit_list_eq_iff (a b : List Char) (hlen : a.length = b.length)
    (ha : ∀ c ∈ a, c.isDigit = true) (hb : ∀ c ∈ b, c.isDigit = true) :
    a = b ↔ digitsToNat a = digitsToNat b :=
  ⟨fun h => by rw [h], fun h => digit_list_eq_of_val_eq a b hlen ha hb h⟩

theorem digit_block_lt_iff : ∀ (a b s t : List Char), a.length = b.length →
    (∀ c ∈ a, c.isDigit = true) → (∀ c ∈ b, c.isDigit = true) →
    ((a ++ s : List Char) < (b ++ t) ↔
      (digitsToNat a < digitsToNat b ∨ (a = b ∧ s < t)))
  | [], [], s, t, _, _, _ => by
    simp [digitsToNat]
  | [], _ :: _, _, _, h, _, _ => by simp at h
  | _ :: _, [], _, _, h, _, _ => by simp at h
  | a :: as, b :: bs, s, t, hlen, ha, hb => by
    have hlen2 : as.length = bs.length := by simpa using hlen
    have hda : a.isDigit = true := ha a (List.mem_cons_self a as)
    have hdb : b.isDigit = true := hb b (List.mem_cons_self b bs)
    have has : ∀ c ∈ as, c.isDigit = true := fun c hc => ha c (List.mem_cons_of_mem a hc)
    have hbs : ∀ c ∈ bs, c.isDigit = true := fun c hc => hb c (List.mem_cons_of_mem b hc)
    show ((a :: (as ++ s) : List Char) < (b :: (bs ++ t))) ↔ _
    rw [char_list_lt_cons_iff]
    rw [digit_block_lt_iff as bs s t hlen2 has hbs]
    rw [digitsToNat_cons_lt_iff a b as bs hlen2 has hbs]
    rw [digit_char_lt_iff hda hdb]
    simp only [List.cons.injEq]
    rw [digit_char_eq_iff hda hdb]
    rw [digit_list_eq_iff as bs hlen2 has hbs]
    tauto

end MalHelper
namespace MalHelper

theorem digit_list_lt_iff (a b : List Char) (hlen : a.length = b.length)
    (ha : ∀ c ∈ a, c.isDigit = true) (hb : ∀ c ∈ b, c.isDigit = true) :
    ((a : List Char) < b) ↔ digitsToNat a < digitsToNat b := by
  have h := digit_block_lt_iff a b [] [] hlen ha hb
  simp only [List.append_nil] at h
  rw [h]
  constructor
  · rintro (h2 | ⟨_, h2⟩)
    · exact h2
    · cases h2
  · exact Or.inl

/-- C6 (counterexample): if raw dates were day-month with a 2-digit year as
the claim states, then e.g. "02/01/21" (2 January 2021) and "01/02/21"
(1 February 2021) would be records in the expected layout; the conversion
yields "21-02-01" — an 8-character string, not a YYYY-MM-DD form — and
lexicographic comparison of the produced strings puts 1 February before
2 January, disagreeing with chronological order. -/
theorem convert_wdate_ddmmyy_not_iso :
    convertWdate "02/01/21" = "21-02-01" ∧
    (convertWdate "02/01/21").length ≠ 10 ∧
    pyStrLt (convertWdate "01/02/21") (convertWdate "02/01/21") := by
  decide

/-- C6 (amended): the raw source date is month/day/year with a 4-digit year
(MM/DD/YYYY); on every record in that layout the normalizer produces the
ISO-ordered YYYY-MM-DD string, and lexicographic comparison of two produced
date strings agrees with the chronological order of (year, month, day). -/
theorem convert_wdate_iso (m1 m2 d1 d2 y1 y2 y3 y4 s1 s2 : Char)
    (n1 n2 e1 e2 z1 z2 z3 z4 t1 t2 : Char)
    (hd : ∀ c ∈ [m1, m2, d1, d2, y1, y2, y3, y4, n1, n2, e1, e2, z1, z2, z3, z4],
      c.isDigit = true) :
    convertWdate ⟨[m1, m2, s1, d1, d2, s2, y1, y2, y3, y4]⟩ =
      ⟨[y1, y2, y3, y4, '-', m1, m2, '-', d1, d2]⟩ ∧
    (pyStrLt (convertWdate ⟨[m1, m2, s1, d1, d2, s2, y1, y2, y3, y4]⟩)
        (convertWdate ⟨[n1, n2, t1, e1, e2, t2, z1, z2, z3, z4]⟩) ↔
      (digitsToNat [y1, y2, y3, y4] < digitsToNat [z1, z2, z3, z4] ∨
        (digitsToNat [y1, y2, y3, y4] = digitsToNat [z1, z2, z3, z4] ∧
          (digitsToNat [m1, m2] < digitsToNat [n1, n2] ∨
            (digitsToNat [m1, m2] = digitsToNat [n1, n2] ∧
              digitsToNat [d1, d2] < digitsToNat [e1, e2]))))) := by
  have hy : ∀ c ∈ [y1, y2, y3, y4], c.isDigit = true := by
    intro c hc
    apply hd
    simp only [List.mem_cons] at hc ⊢
    tauto
  have hz : ∀ c ∈ [z1, z2, z3, z4], c.isDigit = true := by
    intro c hc
    apply hd
    simp only [List.mem_cons] at hc ⊢
    tauto
  have hm : ∀ c ∈ [m1, m2], c.isDigit = true := by
    intro c hc
    apply hd
    simp only [List.mem_cons] at hc ⊢
    tauto
  have hn : ∀ c ∈ [n1, n2], c.isDigit = true := by
    intro c hc
    apply hd
    simp only [List.mem_cons] at hc ⊢
    tauto
  have hdd : ∀ c ∈ [d1, d2], c.isDigit = true := by
    intro c hc
    apply hd
    simp only [List.mem_cons] at hc ⊢
    tauto
  have he : ∀ c ∈ [e1, e2], c.isDigit = true := by
    intro c hc
    apply hd
    simp only [List.mem_cons] at hc ⊢
    tauto
  refine ⟨rfl, ?_⟩
  show ([y1, y2, y3, y4, '-', m1, m2, '-', d1, d2] : List Char) <
      [z1, z2, z3, z4, '-', n1, n2, '-', e1, e2] ↔ _
  rw [show ([y1, y2, y3, y4, '-', m1, m2, '-', d1, d2] : List Char) =
      [y1, y2, y3, y4] ++ ('-' :: ([m1, m2] ++ ('-' :: [d1, d2]))) from rfl]
  rw [show ([z1, z2, z3, z4, '-', n1, n2, '-', e1, e2] : List Char) =
      [z1, z2, z3, z4] ++ ('-' :: ([n1, n2] ++ ('-' :: [e1, e2]))) from rfl]
  rw [digit_block_lt_iff [y1, y2, y3, y4] [z1, z2, z3, z4] _ _ rfl hy hz]
  rw [char_list_lt_cons_iff]
  rw [digit_block_lt_iff [m1, m2] [n1, n2] _ _ rfl hm hn]
  rw [char_list_lt_cons_iff]
  rw [digit_list_lt_iff [d1, d2] [e1, e2] rfl hdd he]
  rw [digit_list_eq_iff [y1, y2, y3, y4] [z1, z2, z3, z4] rfl hy hz]
  rw [digit_list_eq_iff [m1, m2] [n1, n2] rfl hm hn]
  simp [lt_irrefl]

/-- Witness: the records "01/03/2021" and "01/05/2021" convert to
"2021-01-03" and "2021-01-05", and their lexicographic order matches the
chronological order of the dates. -/
theorem convert_wdate_iso_witness :
    convertWdate "01/03/2021" = "2021-01-03" ∧
    (pyStrLt (convertWdate "01/03/2021") (convertWdate "01/05/2021") ↔
      (digitsToNat ['2', '0', '2', '1'] < digitsToNat ['2', '0', '2', '1'] ∨
        (digitsToNat ['2', '0', '2', '1'] = digitsToNat ['2', '0', '2', '1'] ∧
          (digitsToNat ['0', '1'] < digitsToNat ['0', '1'] ∨
            (digitsToNat ['0', '1'] = digitsToNat ['0', '1'] ∧
              digitsToNat ['0', '3'] < digitsToNat ['0', '5']))))) :=
  convert_wdate_iso '0' '1' '0' '3' '2' '0' '2' '1' '/' '/'
    '0' '1' '0' '5' '2' '0' '2' '1' '/' '/' (by decide)

end MalHelper
